import Mathlib

set_option exponentiation.threshold 1100
set_option maxRecDepth 8000

/-!
Verification of the listing dashboard (`src/streamlit_app.py`) against its
natural-language specification.

Shallow embedding notes:
* Python's arbitrary-precision `int` is `Int`; the `float` value produced by
  `float(int(n))` and mutated by `value /= 10000.0` is modelled exactly as an
  IEEE-754 binary64: a dyadic rational with a 53-bit mantissa, every
  operation correctly rounded to nearest with ties to even (see the
  floating-point section below).  `float(i)` raises `OverflowError` when the
  rounded magnitude reaches `2^1024`, and the surrounding `try/except` turns
  that into the identity passthrough.
* Python strings are `String`; `dict` is an insertion-ordered association
  list; network I/O is an explicit oracle function, and each fetch returns
  the list of requests it issued so that claims counting network calls are
  statable.
* A JSON statistics field read only through the guarded one-argument
  `dict.get(k)` is an `Option` (`none` = key missing or JSON null — the two
  are indistinguishable there); `viewCount`, read through the unguarded
  two-argument `dict.get("viewCount", "0")`, distinguishes a missing key
  (default `"0"`) from an explicit null (Python `None`), so it is a
  three-state `JsonField`.
-/

namespace Dashboard

/-- ASCII whitespace accepted (and stripped) by Python's `int(str)`. -/
def isPySpace (c : Char) : Bool :=
  c = ' ' || c = '\t' || c = '\n' || c = '\x0d' || c = '\x0b' || c = '\x0c'

/-- Value of a digit run where single underscores may separate digits
    (Python 3 numeric-literal grammar used by `int(str)`): after each digit,
    either the run ends, another digit follows, or one underscore followed by
    a digit follows.  `acc` is the value of the digits consumed so far. -/
def digitsCore (acc : Nat) : List Char → Option Nat
  | [] => some acc
  | c :: rest =>
    if c.isDigit then digitsCore (10 * acc + (c.toNat - 48)) rest
    else if c = '_' then
      match rest with
      | [] => none
      | d :: rest2 =>
        if d.isDigit then digitsCore (10 * acc + (d.toNat - 48)) rest2
        else none
    else none

/-- A nonempty digit run (with optional single underscores between digits). -/
def parseDigits : List Char → Option Nat
  | [] => none
  | c :: rest => if c.isDigit then digitsCore (c.toNat - 48) rest else none

/-- Model of Python `int(s)` for a string argument: strip surrounding
    whitespace, optional single sign, then a digit run.  (Non-ASCII decimal
    digits, also accepted by CPython, are out of scope; no claim uses them.) -/
def parseIntStr (s : String) : Option Int :=
  let l := (s.toList.dropWhile isPySpace).reverse.dropWhile isPySpace |>.reverse
  match l with
  | '-' :: rest => (parseDigits rest).map (fun m => -(m : Int))
  | '+' :: rest => (parseDigits rest).map (fun m => (m : Int))
  | _ => (parseDigits l).map (fun m => (m : Int))

/-- The suffix ladder `units = ["", "만", "억", "조", "경"]` of
    `human_readable_number`. -/
def unitsList : List String := ["", "만", "억", "조", "경"]

/-! #### Binary floating point

The source runs its loop on a CPython `float`, an IEEE-754 binary64: a
value `± M · 2 ^ (E - 52)` with a 53-bit integer mantissa `M ∈ [2^52, 2^53)`,
every operation rounding its exact result to the nearest such value, ties to
the even mantissa.  Finite doubles are modelled exactly as dyadic rationals
`m · 2 ^ e` (`Dyadic`), and each operation of the source — the `float(int(n))`
conversion, the `value /= 10000.0` divisions — as correct rounding of the
exact rational result to 53 significant bits.  The exponent is not clamped:
the loop never reaches the subnormal range (its guard keeps every quotient
at least 1), and conversion overflow — CPython raises `OverflowError` when
the rounded magnitude reaches `2^1024` — is tested explicitly where the
source performs the conversion. -/

/-- Number of binary digits of `n` (0 for 0).  The first argument is
    recursion fuel; any value at least `n` is enough since the bit length
    never exceeds the number itself. -/
def bitlenAux : Nat → Nat → Nat
  | 0, _ => 0
  | fuel + 1, n => if n = 0 then 0 else bitlenAux fuel (n / 2) + 1

/-- Bit length of a natural number: `2 ^ (bitlen n - 1) ≤ n < 2 ^ bitlen n`
    for `n ≥ 1`. -/
def bitlen (n : Nat) : Nat := bitlenAux n n

/-- `2 ^ k ≤ a / b` for an integer exponent `k`, decided in integers. -/
def qGe (a b : Nat) (k : Int) : Bool :=
  if 0 ≤ k then b * 2 ^ k.toNat ≤ a else b ≤ a * 2 ^ (-k).toNat

/-- Round the nonnegative rational `a / d` to the nearest integer, ties to
    the even candidate — the rounding of IEEE-754 round-to-nearest-even and
    of CPython's `format(v, '.1f')`. -/
def roundHalfEvenDiv (a d : Nat) : Nat :=
  let q := a / d
  let r := a % d
  if 2 * r < d then q
  else if d < 2 * r then q + 1
  else if q % 2 = 0 then q else q + 1

/-- The binary exponent `E = ⌊log2 (a / b)⌋` of a positive rational, located
    from the bit lengths of numerator and denominator (the estimate
    `bitlen a - bitlen b` is exact or one too high; the `qGe` test picks). -/
def roundPosE (a b : Nat) : Int :=
  if qGe a b ((bitlen a : Int) - (bitlen b : Int))
  then (bitlen a : Int) - (bitlen b : Int)
  else (bitlen a : Int) - (bitlen b : Int) - 1

/-- The half-even rounding of `(a / b) · 2 ^ (52 - E)` to an integer: the
    53-bit mantissa candidate at exponent `E` (scaling moved onto the
    numerator or the denominator depending on the sign of `52 - E`). -/
def roundPosM (a b : Nat) (E : Int) : Nat :=
  roundHalfEvenDiv (if 0 ≤ 52 - E then a * 2 ^ (52 - E).toNat else a)
    (if 0 ≤ 52 - E then b else b * 2 ^ (-(52 - E)).toNat)

/-- Round the positive rational `a / b` to 53 significant bits: the result
    `(M, E)` satisfies value `= M · 2 ^ (E - 52)` with `M ∈ [2^52, 2^53)`
    (for `a, b ≥ 1`), carrying into the next exponent when the mantissa
    rounds up to `2^53`. -/
def roundPos (a b : Nat) : Nat × Int :=
  if roundPosM a b (roundPosE a b) = 2 ^ 53
  then (2 ^ 52, roundPosE a b + 1)
  else (roundPosM a b (roundPosE a b), roundPosE a b)

/-- A dyadic rational `m · 2 ^ e`: the exact value of a binary64 float
    (mantissa normalized to `|m| ∈ [2^52, 2^53)` by the rounding functions;
    `m = 0` is the zero float). -/
structure Dyadic where
  m : Int
  e : Int
deriving DecidableEq

/-- Negation of a float (exact, sign-symmetric). -/
def dyNeg (v : Dyadic) : Dyadic := ⟨-v.m, v.e⟩

/-- The correctly rounded float of the rational `p / q` (`q ≥ 1`). -/
def floatRoundRat (p : Int) (q : Nat) : Dyadic :=
  ⟨if p < 0 then -((roundPos p.natAbs q).1 : Int) else ((roundPos p.natAbs q).1 : Int),
    (roundPos p.natAbs q).2 - 52⟩

/-- `float(n)` for an integer `n` (unbounded exponent; the overflow that
    CPython raises as `OverflowError` is the test `dyAbsGe · (2 ^ 1024)`). -/
def floatOfInt (n : Int) : Dyadic := floatRoundRat n 1

/-- `N ≤ |v|` for a float `v` and a natural bound `N`, decided in
    integers. -/
def dyAbsGe (v : Dyadic) (N : Nat) : Bool :=
  if 0 ≤ v.e then N ≤ v.m.natAbs * 2 ^ v.e.toNat
  else N * 2 ^ (-v.e).toNat ≤ v.m.natAbs

/-- `value /= 10000.0`: the correctly rounded quotient `v / 10000`. -/
def divTenThousand (v : Dyadic) : Dyadic :=
  if 0 ≤ v.e then floatRoundRat (v.m * 2 ^ v.e.toNat) 10000
  else floatRoundRat v.m (10000 * 2 ^ (-v.e).toNat)

/-- The `while abs(value) >= 10000 and idx < len(units) - 1` loop of
    `human_readable_number` on the float value.  `steps` is the number of
    loop iterations still allowed, maintained as `(len(units) - 1) - idx`,
    so `steps = 0` is exactly the failure of the guard
    `idx < len(units) - 1`. -/
def reduceLoopAux : Nat → Dyadic → Nat → Dyadic × Nat
  | 0, v, idx => (v, idx)
  | steps + 1, v, idx =>
    if dyAbsGe v 10000 then reduceLoopAux steps (divTenThousand v) (idx + 1)
    else (v, idx)

/-- Entry to the reduction loop: `idx = 0`, at most `len(units) - 1 = 4`
    iterations. -/
def reduceLoop (v : Dyadic) : Dyadic × Nat :=
  reduceLoopAux (unitsList.length - 1) v 0

/-- `k`-fold repeated float division by 10,000. -/
def divSteps : Nat → Dyadic → Dyadic
  | 0, v => v
  | k + 1, v => divTenThousand (divSteps k v)

/-- Digit grouping of `f"{i:,}"` on a reversed digit list: commas every three
    digits, counted from the least significant end.  The first argument is
    recursion fuel (any value at least the list length). -/
def groupRevAux : Nat → List Char → List Char
  | 0, l => l
  | fuel + 1, l =>
    if l.length ≤ 3 then l else l.take 3 ++ ',' :: groupRevAux fuel (l.drop 3)

/-- `f"{m:,}"` for a natural number: decimal digits with thousands commas. -/
def commaGroup (m : Nat) : String :=
  let digits := (toString m).toList.reverse
  String.mk ((groupRevAux digits.length digits).reverse)

/-- `f"{i:,}"` for an integer (sign, then grouped magnitude). -/
def intComma (n : Int) : String :=
  (if n < 0 then "-" else "") ++ commaGroup n.natAbs

/-- Python `int(v)` for a float `v`: truncation toward zero. -/
def dyTrunc (v : Dyadic) : Int :=
  if 0 ≤ v.e then v.m * 2 ^ v.e.toNat
  else v.m.sign * (v.m.natAbs / 2 ^ (-v.e).toNat)

/-- `|v| · 10` rounded half-even to an integer: the digits CPython's
    `f"{value:.1f}"` prints, in tenths. -/
def oneDecimalVal (v : Dyadic) : Nat :=
  if 0 ≤ v.e then 10 * v.m.natAbs * 2 ^ v.e.toNat
  else roundHalfEvenDiv (10 * v.m.natAbs) (2 ^ (-v.e).toNat)

/-- `f"{value:.1f}".rstrip("0").rstrip(".")`: one correctly rounded decimal
    digit of the float, a trailing `.0` stripped.  The sign is rendered from
    the magnitude, which agrees with the sign-symmetric half-even rounding
    of the format spec. -/
def oneDecimal (v : Dyadic) : String :=
  let t := oneDecimalVal v
  let sign := if v.m < 0 then "-" else ""
  if t % 10 = 0 then sign ++ toString (t / 10)
  else sign ++ toString (t / 10) ++ "." ++ toString (t % 10)

/-- Body of `human_readable_number` after a successful, non-overflowing
    `float(int(n))` conversion to the float `v`: the reduction loop, then
    either comma grouping of `int(value)` (no reduction) or the compact
    one-decimal form with the matched suffix. -/
def hrnCore (v : Dyadic) (unit : String) : String :=
  let p := reduceLoop v
  if p.2 = 0 then intComma (dyTrunc p.1) ++ unit
  else oneDecimal p.1 ++ unitsList.getD p.2 "" ++ unit

/-- `human_readable_number(n, unit)` called with a Python `int` argument:
    `float(int(n))` raises `OverflowError` when the rounded magnitude
    reaches `2^1024`, which the `except` clause turns into `str(n)`;
    otherwise the ladder runs on the float. -/
def human_readable_number (n : Int) (unit : String) : String :=
  if dyAbsGe (floatOfInt n) (2 ^ 1024) then toString n
  else hrnCore (floatOfInt n) unit

/-- `human_readable_number(s, unit)` called with a string argument: a failed
    `int(s)` parse (and the float-overflow case) returns the input string
    unchanged. -/
def human_readable_number_str (s : String) (unit : String) : String :=
  match parseIntStr s with
  | none => s
  | some n =>
    if dyAbsGe (floatOfInt n) (2 ^ 1024) then s else hrnCore (floatOfInt n) unit

/-! ### Listing pipeline data model -/

/-- `snippet.thumbnails`: each of the three preference keys may be missing;
    a present key carries its `url` string. -/
structure Thumbnails where
  medium : Option String
  high : Option String
  thumbDefault : Option String
deriving DecidableEq

/-- `item["snippet"]` of a raw video item: any key may be missing. -/
structure Snippet where
  title : Option String
  channelTitle : Option String
  channelId : Option String
  thumbnails : Thumbnails
deriving DecidableEq

/-- A JSON object field: missing key, explicit `null`, or a (string)
    value. -/
inductive JsonField where
  | missing
  | null
  | str (s : String)
deriving DecidableEq

/-- Python `d.get(k, default)`: the stored value when the key is present —
    `None` (here `Option.none`) when that value is an explicit JSON null —
    and the default when the key is missing. -/
def jsonGetD (f : JsonField) (d : String) : Option String :=
  match f with
  | JsonField.missing => some d
  | JsonField.null => none
  | JsonField.str s => some s

/-- `human_readable_number` applied to the result of a two-argument `get`:
    a `None` argument makes `int(None)` raise `TypeError`, and the `except`
    clause returns `str(None)`, the bare string `"None"` (no unit). -/
def human_readable_number_opt (v : Option String) (unit : String) : String :=
  match v with
  | none => "None"
  | some s => human_readable_number_str s unit

/-- `item["statistics"]` of a raw video item.  `likeCount`/`commentCount`
    are read only through the guarded one-argument `stats.get(k)`, for which
    a missing key and a JSON `null` are indistinguishable (`Option`, with
    `none` for both); `viewCount` is read through the unguarded two-argument
    `stats.get("viewCount", "0")`, which distinguishes them, hence a
    three-state `JsonField`.  YouTube serves the counts as decimal strings,
    hence `String` values. -/
structure VideoStatistics where
  viewCount : JsonField
  likeCount : Option String
  commentCount : Option String
deriving DecidableEq

/-- A raw item of the listing response (`RawItem` of the specification). -/
structure RawItem where
  id : Option String
  snippet : Snippet
  statistics : VideoStatistics
deriving DecidableEq

/-- A channel's `statistics` object from the channels endpoint. -/
structure ChannelStats where
  subscriberCount : Option String
deriving DecidableEq

/-- The `channel_stats_map` dict: insertion-ordered association list with
    unique keys.  A key is `item.get("id")`, hence optional. -/
def StatsMap := List (Option String × ChannelStats)

/-- Python `d[k] = v`: replace the value of an existing key in place,
    otherwise append the binding. -/
def dictSet (m : StatsMap) (k : Option String) (v : ChannelStats) : StatsMap :=
  match m with
  | [] => [(k, v)]
  | (k', v') :: rest =>
    if k' = k then (k, v) :: rest else (k', v') :: dictSet rest k v

/-- Python `k in d` / `d[k]` on the association list. -/
def dictFind (m : StatsMap) (k : Option String) : Option ChannelStats :=
  match m with
  | [] => none
  | (k', v') :: rest => if k' = k then some v' else dictFind rest k

/-- The display row produced for one video item by `render_video_item`
    (`DisplayRecord` of the specification). -/
structure DisplayRecord where
  title : String
  channel : String
  thumbUrl : Option String
  views : String
  likes : String
  comments : String
  subsText : String
  videoUrl : String
deriving DecidableEq

/-- Python `x or y` on optional strings: an absent or empty (falsy) `x`
    falls through to `y`. -/
def pyOrStr (x y : Option String) : Option String :=
  match x with
  | some s => if s = "" then y else some s
  | none => y

/-- The "not disclosed" sentinel `"비공개"`. -/
def sentinel : String := "비공개"

/-- `render_video_item(item, channel_stats_map)`, restricted to the display
    row it computes (the `st.*` layout calls render exactly these strings). -/
def render_video_item (item : RawItem) (channel_stats_map : StatsMap) :
    DisplayRecord :=
  let vid := item.id.getD ""
  let title := (item.snippet.title).getD "(제목 없음)"
  let channel := (item.snippet.channelTitle).getD "(채널 정보 없음)"
  let channel_id := (item.snippet.channelId).getD ""
  let thumbs := item.snippet.thumbnails
  let thumb_url := pyOrStr thumbs.medium (pyOrStr thumbs.high thumbs.thumbDefault)
  let views := human_readable_number_opt (jsonGetD item.statistics.viewCount "0") "회"
  let likes :=
    match item.statistics.likeCount with
    | some s => human_readable_number_str s "개"
    | none => sentinel
  let comments :=
    match item.statistics.commentCount with
    | some s => human_readable_number_str s "개"
    | none => sentinel
  let subs_text :=
    if channel_id ≠ "" then
      match dictFind channel_stats_map (some channel_id) with
      | some ch_stats =>
        match ch_stats.subscriberCount with
        | some subs => human_readable_number_str subs "명"
        | none => sentinel
      | none => sentinel
    else sentinel
  { title := title
    channel := channel
    thumbUrl := thumb_url
    views := views
    likes := likes
    comments := comments
    subsText := subs_text
    videoUrl := "https://www.youtube.com/watch?v=" ++ vid }

/-! ### Channel-statistics fetch -/

/-- One item of the channels-endpoint response body. -/
structure ChannelsApiItem where
  id : Option String
  statistics : Option ChannelStats
deriving DecidableEq

/-- An HTTP response: status code and the parsed `items` array
    (`data.get("items", [])` makes a missing array the empty list). -/
structure ChannelsHttpResp where
  status : Nat
  items : List ChannelsApiItem

/-- The network oracle for the channels endpoint: maps the `id` query
    parameter to either a transport error (timeout, connection failure —
    any non-HTTP `requests` exception, carried as a message) or a response. -/
def ChannelsNet := String → Except String ChannelsHttpResp

/-- `list(dict.fromkeys(l))`: deduplicate keeping first-seen order. -/
def dedupKeepOrder (l : List String) : List String :=
  l.foldl (fun acc x => if x ∈ acc then acc else acc ++ [x]) []

/-- The `out[cid] = item.get("statistics", {})` accumulation loop
    (a missing `statistics` key defaults to the empty dict, i.e. a
    `ChannelStats` with no `subscriberCount`). -/
def buildStatsMap (items : List ChannelsApiItem) : StatsMap :=
  items.foldl (fun out item =>
    dictSet out item.id (item.statistics.getD { subscriberCount := none })) []

/-- `resp.raise_for_status()`: `requests` raises for status codes in
    [400, 600). -/
def raisesForStatus (status : Nat) : Bool := 400 ≤ status && status < 600

/-- `fetch_channel_statistics(api_key, channel_ids)`.  The first component
    is the outcome (`Except` models an escaping exception); the second is
    the list of `id` query parameters of the network requests issued, so
    that properties about the number and content of network calls are
    statable.  The API key does not influence the modelled behaviour. -/
def fetch_channel_statistics (net : ChannelsNet) (channel_ids : List String) :
    Except String StatsMap × List String :=
  if channel_ids = [] then (Except.ok [], [])
  else
    let unique_ids := dedupKeepOrder (channel_ids.filter (fun cid => cid ≠ ""))
    let idParam := String.intercalate "," (unique_ids.take 50)
    match net idParam with
    | Except.error e => (Except.error e, [idParam])
    | Except.ok resp =>
      if raisesForStatus resp.status then
        (Except.error ("HTTP " ++ toString resp.status), [idParam])
      else
        (Except.ok (buildStatsMap resp.items), [idParam])

/-- The `id` query parameter built for a non-empty input: the first 50 of
    the deduplicated non-empty ids, comma-joined. -/
def channelsIdParam (ids : List String) : String :=
  String.intercalate "," ((dedupKeepOrder (ids.filter fun cid => cid ≠ "")).take 50)

/-! ### Listing fetch and its cache -/

/-- Arguments of `fetch_popular_videos`, the cache key of its
    `@st.cache_data` memoization. -/
structure ListingKey where
  apiKey : String
  regionCode : String
  maxResults : Int
deriving DecidableEq

/-- A listing response body: the `items` array of raw video items. -/
structure VideosResp where
  items : List RawItem
deriving DecidableEq

/-- Cache contents: per key, the time the entry was stored and the stored
    response. -/
def ListingCache := List (ListingKey × Nat × VideosResp)

/-- TTL of both `@st.cache_data(ttl=300, ...)` annotations. -/
def CACHE_TTL : Nat := 300

/-- Lookup of a cache entry by key. -/
def cacheFind (c : ListingCache) (k : ListingKey) : Option (Nat × VideosResp) :=
  match c with
  | [] => none
  | (k', e) :: rest => if k' = k then some e else cacheFind rest k

/-- Modelled from the spec: the `@st.cache_data(ttl=300)` memoization
    wrapping `fetch_popular_videos` is provided by the streamlit library,
    not by this repository's source; the specification describes it as a
    table keyed by the call arguments whose entries are valid for a fixed
    300-time-unit TTL.  A hit within the TTL returns the stored value with
    no network call; otherwise the network fetch runs and its result is
    stored at the current time.  Returns (result, new cache state, whether
    a network call was issued). -/
def fetch_popular_videos_cached (net : ListingKey → VideosResp)
    (cache : ListingCache) (now : Nat) (k : ListingKey) :
    VideosResp × ListingCache × Bool :=
  match cacheFind cache k with
  | some (t, v) =>
    if now < t + CACHE_TTL then (v, cache, false)
    else
      let v' := net k
      ((v'), (k, now, v') :: cache.filter (fun e => e.1 ≠ k), true)
  | none =>
    let v' := net k
    ((v'), (k, now, v') :: cache.filter (fun e => e.1 ≠ k), true)

/-! ### Orchestration (`main`, lines 269–286) -/

/-- The render loop `for item in items: render_video_item(item, ...)`:
    one display row per raw item, in the items' order. -/
def renderAll (items : List RawItem) (m : StatsMap) : List DisplayRecord :=
  items.map (fun item => render_video_item item m)

/-- The stats-and-render section of `main` after a successful listing fetch:
    extract `channel_ids` from the items, fetch the channel statistics —
    downgrading any exception to the empty mapping — and render every item. -/
def mainListingSection (net : ChannelsNet) (items : List RawItem) :
    List DisplayRecord :=
  let channel_ids := items.map (fun it => (it.snippet.channelId).getD "")
  let channel_stats_map :=
    match (fetch_channel_statistics net channel_ids).1 with
    | Except.ok m => m
    | Except.error _ => []
  renderAll items channel_stats_map

/-! ### Concrete sample data (used by witnesses) -/

/-- A representative raw item: present title/channel/id, present viewCount,
    a legitimate zero likeCount, an absent commentCount. -/
def sampleItem : RawItem :=
  ⟨some "v1", ⟨some "title", some "channel", some "c1", ⟨some "mu", none, none⟩⟩,
    ⟨JsonField.str "5", some "0", none⟩⟩

/-- A raw item whose statistics are entirely absent. -/
def sampleItemNoStats : RawItem :=
  ⟨some "v2", ⟨none, none, some "c1", ⟨none, none, none⟩⟩,
    ⟨JsonField.missing, none, none⟩⟩

/-- A raw item whose `viewCount` is an explicit JSON null. -/
def sampleItemNullViews : RawItem :=
  ⟨some "v3", ⟨none, none, none, ⟨none, none, none⟩⟩,
    ⟨JsonField.null, none, none⟩⟩

/-- A stats mapping carrying a subscriber count for channel `c1`. -/
def sampleMap : StatsMap := [(some "c1", ⟨some "12345"⟩)]

/-- A channels-endpoint oracle answering 200 with an empty items array. -/
def sampleNetOk : ChannelsNet := fun _ => Except.ok ⟨200, []⟩

/-- A channels-endpoint oracle failing with a transport error. -/
def sampleNetErr : ChannelsNet := fun _ => Except.error "timeout"

/-- Sixty pairwise distinct channel ids. -/
def sampleIds : List String := (List.range 60).map (fun i => toString i)

/-- A listing cache key. -/
def sampleKey : ListingKey := ⟨"key", "KR", 30⟩

/-- A listing-endpoint oracle returning one item. -/
def sampleListingNet : ListingKey → VideosResp := fun _ => ⟨[sampleItem]⟩

/-! ### Loop structure lemmas -/

/-- The division count never exceeds the remaining fuel. -/
theorem reduceLoopAux_le (steps : Nat) :
    ∀ (v : Dyadic) (idx : Nat), (reduceLoopAux steps v idx).2 ≤ idx + steps := by
  induction steps with
  | zero => intro v idx; simp [reduceLoopAux]
  | succ s ih =>
    intro v idx
    rw [reduceLoopAux]
    split
    · calc (reduceLoopAux s (divTenThousand v) (idx + 1)).2 ≤ (idx + 1) + s :=
          ih (divTenThousand v) (idx + 1)
        _ = idx + (s + 1) := by omega
    · omega

/-- The division count never drops below the start index. -/
theorem le_reduceLoopAux (steps : Nat) :
    ∀ (v : Dyadic) (idx : Nat), idx ≤ (reduceLoopAux steps v idx).2 := by
  induction steps with
  | zero => intro v idx; simp [reduceLoopAux]
  | succ s ih =>
    intro v idx
    rw [reduceLoopAux]
    split
    · exact le_trans (by omega) (ih (divTenThousand v) (idx + 1))
    · exact le_refl idx

/-- If the loop stopped before exhausting the fuel, it stopped because the
    guard failed: the remaining float is below 10,000 in magnitude. -/
theorem reduceLoopAux_stop (steps : Nat) :
    ∀ (v : Dyadic) (idx : Nat), (reduceLoopAux steps v idx).2 < idx + steps →
      dyAbsGe (reduceLoopAux steps v idx).1 10000 = false := by
  induction steps with
  | zero =>
    intro v idx h
    rw [reduceLoopAux] at h
    omega
  | succ s ih =>
    intro v idx h
    rw [reduceLoopAux] at h ⊢
    by_cases hg : dyAbsGe v 10000 = true
    · rw [if_pos hg] at h ⊢
      exact ih (divTenThousand v) (idx + 1) (by omega)
    · rw [if_neg hg] at h ⊢
      exact Bool.eq_false_iff.mpr hg

/-- The loop performs no division exactly when the entry guard fails. -/
theorem reduceLoopAux_idx_iff (steps : Nat) (v : Dyadic) (idx : Nat) :
    (reduceLoopAux (steps + 1) v idx).2 = idx ↔ dyAbsGe v 10000 = false := by
  rw [reduceLoopAux]
  constructor
  · intro h
    by_contra hg
    have hg' : dyAbsGe v 10000 = true := by
      cases hdy : dyAbsGe v 10000 with
      | true => rfl
      | false => exact absurd hdy hg
    rw [if_pos hg'] at h
    have := le_reduceLoopAux steps (divTenThousand v) (idx + 1)
    omega
  · intro h
    rw [if_neg (by simp [h])]

/-- Repeated division commutes with one more division at the input. -/
theorem divSteps_comm (k : Nat) (v : Dyadic) :
    divSteps k (divTenThousand v) = divTenThousand (divSteps k v) := by
  induction k with
  | zero => rfl
  | succ j ih => rw [divSteps, ih]; rfl

/-- The loop's final value is exactly the repeated float division of its
    input, as many times as the returned index advanced. -/
theorem reduceLoopAux_divSteps (steps : Nat) :
    ∀ (v : Dyadic) (idx : Nat),
      (reduceLoopAux steps v idx).1 =
        divSteps ((reduceLoopAux steps v idx).2 - idx) v := by
  induction steps with
  | zero => intro v idx; simp [reduceLoopAux, divSteps]
  | succ s ih =>
    intro v idx
    rw [reduceLoopAux]
    split
    · have hle : idx + 1 ≤ (reduceLoopAux s (divTenThousand v) (idx + 1)).2 :=
        le_reduceLoopAux s (divTenThousand v) (idx + 1)
      rw [ih (divTenThousand v) (idx + 1), divSteps_comm]
      have hk : (reduceLoopAux s (divTenThousand v) (idx + 1)).2 - idx =
          ((reduceLoopAux s (divTenThousand v) (idx + 1)).2 - (idx + 1)) + 1 := by
        omega
      rw [hk]
      rfl
    · simp [divSteps]

/-! ### Bit length and rounding bounds -/

theorem bitlenAux_zero (fuel : Nat) : bitlenAux fuel 0 = 0 := by
  cases fuel with
  | zero => rfl
  | succ f => rw [bitlenAux, if_pos rfl]

theorem bitlenAux_pos (fuel n : Nat) (hn : n ≠ 0) (hf : fuel ≠ 0) :
    1 ≤ bitlenAux fuel n := by
  cases fuel with
  | zero => exact absurd rfl hf
  | succ f => rw [bitlenAux, if_neg hn]; omega

/-- Lower half of the bit-length bracket. -/
theorem bitlenAux_lower (fuel : Nat) :
    ∀ n, n ≠ 0 → n ≤ fuel → 2 ^ (bitlenAux fuel n - 1) ≤ n := by
  induction fuel with
  | zero => intro n hn h; omega
  | succ f ih =>
    intro n hn h
    rw [bitlenAux, if_neg hn]
    by_cases h2 : n / 2 = 0
    · have : bitlenAux f (n / 2) = 0 := h2 ▸ bitlenAux_zero f
      rw [this]
      simpa using Nat.one_le_iff_ne_zero.mpr hn
    · have hf : f ≠ 0 := by omega
      have hb : 1 ≤ bitlenAux f (n / 2) := bitlenAux_pos f (n / 2) h2 hf
      have := ih (n / 2) h2 (by omega)
      have hpow : 2 ^ (bitlenAux f (n / 2) + 1 - 1) =
          2 * 2 ^ (bitlenAux f (n / 2) - 1) := by
        rw [Nat.add_sub_cancel, ← pow_succ']
        congr 1
        omega
      rw [hpow]
      omega

/-- Upper half of the bit-length bracket. -/
theorem bitlenAux_upper (fuel : Nat) :
    ∀ n, n ≤ fuel → n < 2 ^ bitlenAux fuel n := by
  induction fuel with
  | zero =>
    intro n h
    have : n = 0 := by omega
    subst this
    simp [bitlenAux]
  | succ f ih =>
    intro n h
    by_cases hn : n = 0
    · subst hn; simp [bitlenAux]
    · rw [bitlenAux, if_neg hn]
      have := ih (n / 2) (by omega)
      have hpow : 2 ^ (bitlenAux f (n / 2) + 1) =
          2 * 2 ^ bitlenAux f (n / 2) := by rw [← pow_succ']
      omega

theorem bitlen_lower (n : Nat) (h : n ≠ 0) : 2 ^ (bitlen n - 1) ≤ n :=
  bitlenAux_lower n n h le_rfl

theorem bitlen_upper (n : Nat) : n < 2 ^ bitlen n :=
  bitlenAux_upper n n le_rfl

theorem bitlen_pos (n : Nat) (h : n ≠ 0) : 1 ≤ bitlen n :=
  bitlenAux_pos n n h (by omega)

/-- Half-even rounding never falls below the floor. -/
theorem rhed_div_le (a d : Nat) : a / d ≤ roundHalfEvenDiv a d := by
  show a / d ≤
    (if 2 * (a % d) < d then a / d
     else if d < 2 * (a % d) then a / d + 1
     else if (a / d) % 2 = 0 then a / d else a / d + 1)
  split
  · exact le_refl _
  · split
    · omega
    · split <;> omega

/-- Exact quotients round to themselves. -/
theorem rhed_exact (a d : Nat) (hd : d ≠ 0) (h : d ∣ a) :
    roundHalfEvenDiv a d = a / d := by
  show (if 2 * (a % d) < d then a / d
        else if d < 2 * (a % d) then a / d + 1
        else if (a / d) % 2 = 0 then a / d else a / d + 1) = a / d
  obtain ⟨c, rfl⟩ := h
  have h0 : d * c % d = 0 := Nat.mul_mod_right d c
  rw [h0, if_pos (by omega)]

/-- Division by one is the identity. -/
theorem rhed_one (a : Nat) : roundHalfEvenDiv a 1 = a := by
  have := rhed_exact a 1 (by omega) (one_dvd a)
  simpa using this

/-- Rounding a zero numerator gives zero. -/
theorem rhed_zero (d : Nat) : roundHalfEvenDiv 0 d = 0 := by
  show (if 2 * (0 % d) < d then 0 / d
        else if d < 2 * (0 % d) then 0 / d + 1
        else if (0 / d) % 2 = 0 then 0 / d else 0 / d + 1) = 0
  simp

/-! ### Mantissa bounds of the rounding -/

/-- The chosen exponent really is a lower bound: `2 ^ roundPosE ≤ a / b`. -/
theorem roundPosE_qGe (a b : Nat) (ha : a ≠ 0) (hb : b ≠ 0) :
    qGe a b (roundPosE a b) = true := by
  rw [roundPosE]
  by_cases hq : qGe a b ((bitlen a : Int) - (bitlen b : Int)) = true
  · rw [if_pos hq]
    exact hq
  · rw [if_neg hq]
    have hLa := bitlen_pos a ha
    have hLb := bitlen_pos b hb
    have hal := bitlen_lower a ha
    have hbu := bitlen_upper b
    by_cases hk : (0 : Int) ≤ (bitlen a : Int) - (bitlen b : Int) - 1
    · have ht : ((bitlen a : Int) - (bitlen b : Int) - 1).toNat =
        bitlen a - bitlen b - 1 := by omega
      simp only [qGe, if_pos hk, ht, decide_eq_true_eq]
      have hpow : 2 ^ bitlen b * 2 ^ (bitlen a - bitlen b - 1) =
          2 ^ (bitlen a - 1) := by
        rw [← pow_add]
        congr 1
        omega
      have hp : 0 < 2 ^ (bitlen a - bitlen b - 1) :=
        pow_pos (by norm_num) _
      have hblt : b * 2 ^ (bitlen a - bitlen b - 1) <
          2 ^ bitlen b * 2 ^ (bitlen a - bitlen b - 1) :=
        (Nat.mul_lt_mul_right hp).mpr hbu
      calc b * 2 ^ (bitlen a - bitlen b - 1)
          ≤ 2 ^ bitlen b * 2 ^ (bitlen a - bitlen b - 1) := le_of_lt hblt
        _ = 2 ^ (bitlen a - 1) := hpow
        _ ≤ a := hal
    · have ht : (-((bitlen a : Int) - (bitlen b : Int) - 1)).toNat =
        bitlen b + 1 - bitlen a := by omega
      simp only [qGe, if_neg hk, ht, decide_eq_true_eq]
      have hpow : 2 ^ (bitlen a - 1) * 2 ^ (bitlen b + 1 - bitlen a) =
          2 ^ bitlen b := by
        rw [← pow_add]
        congr 1
        omega
      calc b ≤ 2 ^ bitlen b := le_of_lt hbu
        _ = 2 ^ (bitlen a - 1) * 2 ^ (bitlen b + 1 - bitlen a) := hpow.symm
        _ ≤ a * 2 ^ (bitlen b + 1 - bitlen a) :=
            Nat.mul_le_mul_right _ hal

/-- The scaled numerator dominates `2^52` denominators whenever the exponent
    is a true lower bound. -/
theorem roundPosM_key (a b : Nat) (E : Int) (h : qGe a b E = true) :
    2 ^ 52 * (if 0 ≤ 52 - E then b else b * 2 ^ (-(52 - E)).toNat) ≤
      (if 0 ≤ 52 - E then a * 2 ^ (52 - E).toNat else a) := by
  by_cases hs : (0 : Int) ≤ 52 - E
  · rw [if_pos hs, if_pos hs]
    by_cases hE : (0 : Int) ≤ E
    · have hq : b * 2 ^ E.toNat ≤ a := by
        simpa only [qGe, if_pos hE, decide_eq_true_eq] using h
      have hexp : E.toNat + (52 - E).toNat = 52 := by omega
      calc 2 ^ 52 * b = b * 2 ^ E.toNat * 2 ^ (52 - E).toNat := by
            rw [mul_assoc, ← pow_add, hexp]
            ring
        _ ≤ a * 2 ^ (52 - E).toNat := Nat.mul_le_mul_right _ hq
    · have hq : b ≤ a * 2 ^ (-E).toNat := by
        simpa only [qGe, if_neg hE, decide_eq_true_eq] using h
      have hexp : (52 - E).toNat = 52 + (-E).toNat := by omega
      calc 2 ^ 52 * b ≤ 2 ^ 52 * (a * 2 ^ (-E).toNat) :=
            Nat.mul_le_mul_left _ hq
        _ = a * 2 ^ (52 - E).toNat := by
            rw [hexp, pow_add]
            ring
  · rw [if_neg hs, if_neg hs]
    have hE : (0 : Int) ≤ E := by omega
    have hq : b * 2 ^ E.toNat ≤ a := by
      simpa only [qGe, if_pos hE, decide_eq_true_eq] using h
    have hexp : E.toNat = 52 + (-(52 - E)).toNat := by omega
    calc 2 ^ 52 * (b * 2 ^ (-(52 - E)).toNat) = b * 2 ^ E.toNat := by
          rw [hexp, pow_add]
          ring
      _ ≤ a := hq

/-- The rounded mantissa of a positive quotient is at least `2^52`. -/
theorem roundPos_lb (a b : Nat) (ha : a ≠ 0) (hb : b ≠ 0) :
    2 ^ 52 ≤ (roundPos a b).1 := by
  have hkey := roundPosM_key a b (roundPosE a b) (roundPosE_qGe a b ha hb)
  have hden : 0 < (if (0:Int) ≤ 52 - roundPosE a b then b
      else b * 2 ^ (-(52 - roundPosE a b)).toNat) := by
    split
    · omega
    · exact Nat.mul_pos (by omega) (Nat.pos_pow_of_pos _ (by omega))
  have hM : 2 ^ 52 ≤ roundPosM a b (roundPosE a b) := by
    refine le_trans ?_ (rhed_div_le _ _)
    rw [Nat.le_div_iff_mul_le hden]
    exact hkey
  rw [roundPos]
  split
  · exact le_refl _
  · exact hM

/-! ### String and sign helpers -/

theorem empty_append_str : ∀ s : String, "" ++ s = s
  | ⟨_⟩ => rfl

theorem str_append_assoc : ∀ a b c : String, a ++ b ++ c = a ++ (b ++ c)
  | ⟨x⟩, ⟨y⟩, ⟨z⟩ => congrArg String.mk (List.append_assoc x y z)

/-- Python `str(i)` for a negative integer is the minus sign followed by
    `str(-i)`. -/
theorem toString_int_neg : ∀ n : Int, n < 0 → toString n = "-" ++ toString (-n)
  | Int.ofNat m, h => absurd h (by simp)
  | Int.negSucc _, _ => rfl

/-- `f"{i:,}"` of a negative integer is the sign followed by the grouped
    magnitude. -/
theorem intComma_neg (n : Int) (h : n < 0) : intComma n = "-" ++ intComma (-n) := by
  rw [intComma, intComma, if_pos h, if_neg (by omega), Int.natAbs_neg,
    empty_append_str]

/-! ### Sign mirror of the float pipeline

Every float operation of the source is sign-symmetric: rounding to nearest
with ties to even commutes with negation, the loop guard and the division
only see the magnitude, and format/trunc render the sign separately.  -/

theorem roundPos_zero (b : Nat) : (roundPos 0 b).1 = 0 := by
  have hM : roundPosM 0 b (roundPosE 0 b) = 0 := by
    rw [roundPosM]
    split
    · rw [Nat.zero_mul]
      exact rhed_zero _
    · exact rhed_zero _
  rw [roundPos, hM, if_neg (by norm_num)]

/-- Rounding commutes with negation. -/
theorem floatRoundRat_neg (p : Int) (q : Nat) :
    floatRoundRat (-p) q = dyNeg (floatRoundRat p q) := by
  show (⟨if -p < 0 then -(((roundPos (-p).natAbs q).1 : Nat) : Int)
      else (((roundPos (-p).natAbs q).1 : Nat) : Int),
    (roundPos (-p).natAbs q).2 - 52⟩ : Dyadic) =
    ⟨-(if p < 0 then -(((roundPos p.natAbs q).1 : Nat) : Int)
      else (((roundPos p.natAbs q).1 : Nat) : Int)),
    (roundPos p.natAbs q).2 - 52⟩
  rw [Int.natAbs_neg]
  rcases lt_trichotomy p 0 with hp | hp | hp
  · rw [if_neg (by omega), if_pos hp, neg_neg]
  · subst hp
    rw [neg_zero]
    simp [roundPos_zero]
  · rw [if_pos (by omega), if_neg (by omega)]

/-- The guard only sees the magnitude. -/
theorem dyAbsGe_neg (v : Dyadic) (N : Nat) : dyAbsGe (dyNeg v) N = dyAbsGe v N := by
  show (if (0:Int) ≤ v.e then decide (N ≤ (-v.m).natAbs * 2 ^ v.e.toNat)
    else decide (N * 2 ^ (-v.e).toNat ≤ (-v.m).natAbs)) = dyAbsGe v N
  rw [Int.natAbs_neg]
  rfl

/-- The division commutes with negation. -/
theorem divTenThousand_neg (v : Dyadic) :
    divTenThousand (dyNeg v) = dyNeg (divTenThousand v) := by
  show (if (0:Int) ≤ v.e then floatRoundRat (-v.m * 2 ^ v.e.toNat) 10000
      else floatRoundRat (-v.m) (10000 * 2 ^ (-v.e).toNat)) =
    dyNeg (if (0:Int) ≤ v.e then floatRoundRat (v.m * 2 ^ v.e.toNat) 10000
      else floatRoundRat v.m (10000 * 2 ^ (-v.e).toNat))
  by_cases he : (0:Int) ≤ v.e
  · rw [if_pos he, if_pos he,
      show -v.m * 2 ^ v.e.toNat = -(v.m * 2 ^ v.e.toNat) by ring,
      floatRoundRat_neg]
  · rw [if_neg he, if_neg he, floatRoundRat_neg]

/-- The loop commutes with negation. -/
theorem reduceLoopAux_neg (steps : Nat) :
    ∀ (v : Dyadic) (idx : Nat),
      reduceLoopAux steps (dyNeg v) idx =
        (dyNeg (reduceLoopAux steps v idx).1, (reduceLoopAux steps v idx).2) := by
  induction steps with
  | zero => intro v idx; rfl
  | succ s ih =>
    intro v idx
    rw [reduceLoopAux, reduceLoopAux, dyAbsGe_neg]
    split
    · rw [divTenThousand_neg]
      exact ih (divTenThousand v) (idx + 1)
    · rfl

/-- Truncation commutes with negation. -/
theorem dyTrunc_neg (v : Dyadic) : dyTrunc (dyNeg v) = -dyTrunc v := by
  show (if (0:Int) ≤ v.e then -v.m * 2 ^ v.e.toNat
      else (-v.m).sign * ((-v.m).natAbs / 2 ^ (-v.e).toNat)) =
    -(if (0:Int) ≤ v.e then v.m * 2 ^ v.e.toNat
      else v.m.sign * (v.m.natAbs / 2 ^ (-v.e).toNat))
  by_cases he : (0:Int) ≤ v.e
  · rw [if_pos he, if_pos he]
    ring
  · rw [if_neg he, if_neg he, Int.sign_neg, Int.natAbs_neg]
    ring

/-- The printed tenths only see the magnitude. -/
theorem oneDecimalVal_neg (v : Dyadic) : oneDecimalVal (dyNeg v) = oneDecimalVal v := by
  show (if (0:Int) ≤ v.e then 10 * (-v.m).natAbs * 2 ^ v.e.toNat
      else roundHalfEvenDiv (10 * (-v.m).natAbs) (2 ^ (-v.e).toNat)) = oneDecimalVal v
  rw [Int.natAbs_neg]
  rfl

/-- The compact one-decimal form of a negated positive float is the sign
    followed by the form of the magnitude. -/
theorem oneDecimal_neg (v : Dyadic) (h : 1 ≤ v.m) :
    oneDecimal (dyNeg v) = "-" ++ oneDecimal v := by
  rw [oneDecimal, oneDecimal, oneDecimalVal_neg]
  have hneg : (dyNeg v).m < 0 := by
    show -v.m < 0
    omega
  simp only [if_pos hneg, if_neg (show ¬v.m < 0 by omega)]
  split
  · rw [empty_append_str]
  · rw [empty_append_str]
    simp only [str_append_assoc]

/-! ### Positivity through the pipeline (for the sign-mirror theorem) -/

/-- A positive quotient rounds to a positive mantissa. -/
theorem floatRoundRat_m_pos (p : Int) (q : Nat) (hp : 1 ≤ p) (hq : q ≠ 0) :
    1 ≤ (floatRoundRat p q).m := by
  show (1 : Int) ≤ (if p < 0 then -((roundPos p.natAbs q).1 : Int)
    else ((roundPos p.natAbs q).1 : Int))
  rw [if_neg (by omega)]
  have h52 : 2 ^ 52 ≤ (roundPos p.natAbs q).1 :=
    roundPos_lb p.natAbs q (by omega) hq
  exact_mod_cast le_trans (by norm_num) h52

theorem floatOfInt_m_pos (n : Int) (h : 1 ≤ n) : 1 ≤ (floatOfInt n).m :=
  floatRoundRat_m_pos n 1 h (by omega)

/-- The float division keeps a positive mantissa positive. -/
theorem divTenThousand_pos (v : Dyadic) (h : 1 ≤ v.m) :
    1 ≤ (divTenThousand v).m := by
  rw [divTenThousand]
  split
  · have h2 : (1 : Int) ≤ 2 ^ v.e.toNat := by
      exact_mod_cast Nat.one_le_two_pow
    exact floatRoundRat_m_pos _ _
      (le_trans h (le_mul_of_one_le_right (by omega) h2)) (by omega)
  · exact floatRoundRat_m_pos _ _ h (by positivity)

/-- The loop keeps a positive mantissa positive. -/
theorem reduceLoopAux_pos (steps : Nat) :
    ∀ (v : Dyadic) (idx : Nat), 1 ≤ v.m →
      1 ≤ (reduceLoopAux steps v idx).1.m := by
  induction steps with
  | zero => intro v idx h; exact h
  | succ s ih =>
    intro v idx h
    rw [reduceLoopAux]
    split
    · exact ih (divTenThousand v) (idx + 1) (divTenThousand_pos v h)
    · exact h

/-! ### `float(int(n))` for small and large integers -/

theorem bitlen_one_eq : bitlen 1 = 1 := rfl

/-- For `b = 1` the exponent is exactly `bitlen a - 1`. -/
theorem roundPosE_one (a : Nat) (ha : a ≠ 0) :
    roundPosE a 1 = (bitlen a : Int) - 1 := by
  have hLa := bitlen_pos a ha
  have hcond : qGe a 1 ((bitlen a : Int) - (bitlen 1 : Int)) = true := by
    rw [bitlen_one_eq]
    have h0 : (0 : Int) ≤ (bitlen a : Int) - 1 := by omega
    have ht : ((bitlen a : Int) - 1).toNat = bitlen a - 1 := by omega
    simp only [qGe, if_pos h0, ht, decide_eq_true_eq, Nat.cast_one, one_mul]
    exact bitlen_lower a ha
  rw [roundPosE, if_pos hcond, bitlen_one_eq]
  norm_num

/-- For an integer that fits in 53 bits the conversion is exact: mantissa
    `a · 2 ^ (53 - bitlen a)`, exponent `bitlen a - 53`. -/
theorem roundPos_one_small (a : Nat) (ha : a ≠ 0) (h53 : bitlen a ≤ 53) :
    roundPos a 1 = (a * 2 ^ (53 - bitlen a), (bitlen a : Int) - 1) := by
  have hM : roundPosM a 1 (roundPosE a 1) = a * 2 ^ (53 - bitlen a) := by
    rw [roundPosE_one a ha, roundPosM]
    have hs : (0 : Int) ≤ 52 - ((bitlen a : Int) - 1) := by omega
    rw [if_pos hs, if_pos hs]
    have ht : ((52 : Int) - ((bitlen a : Int) - 1)).toNat = 53 - bitlen a := by
      omega
    rw [ht]
    exact rhed_one _
  have hlt : a * 2 ^ (53 - bitlen a) < 2 ^ 53 := by
    have hup := bitlen_upper a
    have hp : 0 < 2 ^ (53 - bitlen a) := pow_pos (by norm_num) _
    calc a * 2 ^ (53 - bitlen a) < 2 ^ bitlen a * 2 ^ (53 - bitlen a) :=
          (Nat.mul_lt_mul_right hp).mpr hup
      _ = 2 ^ 53 := by
          rw [← pow_add]
          congr 1
          omega
  rw [roundPos, hM, if_neg (by omega), roundPosE_one a ha]

/-- `float(n) = n` exactly for integers of at most 53 bits. -/
theorem floatOfInt_small (n : Int) (h1 : 1 ≤ n) (h53 : bitlen n.natAbs ≤ 53) :
    floatOfInt n =
      ⟨((n.natAbs * 2 ^ (53 - bitlen n.natAbs) : Nat) : Int),
        (bitlen n.natAbs : Int) - 53⟩ := by
  have ha : n.natAbs ≠ 0 := by omega
  have hstep : floatOfInt n =
      ⟨((roundPos n.natAbs 1).1 : Int), (roundPos n.natAbs 1).2 - 52⟩ := by
    show (⟨if n < 0 then -((roundPos n.natAbs 1).1 : Int)
        else ((roundPos n.natAbs 1).1 : Int),
      (roundPos n.natAbs 1).2 - 52⟩ : Dyadic) = _
    rw [if_neg (by omega)]
  rw [hstep, roundPos_one_small n.natAbs ha h53]
  congr 1
  omega

/-- `int(float(n)) = n` for integers of at most 53 bits. -/
theorem dyTrunc_floatOfInt_small (n : Int) (h1 : 1 ≤ n)
    (h53 : bitlen n.natAbs ≤ 53) : dyTrunc (floatOfInt n) = n := by
  rw [floatOfInt_small n h1 h53]
  show (if (0:Int) ≤ (bitlen n.natAbs : Int) - 53 then
      ((n.natAbs * 2 ^ (53 - bitlen n.natAbs) : Nat) : Int) *
        2 ^ ((bitlen n.natAbs : Int) - 53).toNat
    else ((n.natAbs * 2 ^ (53 - bitlen n.natAbs) : Nat) : Int).sign *
      (((n.natAbs * 2 ^ (53 - bitlen n.natAbs) : Nat) : Int).natAbs /
        2 ^ (-((bitlen n.natAbs : Int) - 53)).toNat)) = n
  by_cases he : bitlen n.natAbs = 53
  · rw [he, if_pos (show (0:Int) ≤ ((53 : Nat) : Int) - 53 by norm_num)]
    norm_num
    omega
  · have hlt : bitlen n.natAbs < 53 := by omega
    rw [if_neg (show ¬ (0:Int) ≤ (bitlen n.natAbs : Int) - 53 by omega)]
    have hKpos : 0 < 2 ^ (53 - bitlen n.natAbs) := pow_pos (by norm_num) _
    have hpos : (0 : Nat) < n.natAbs * 2 ^ (53 - bitlen n.natAbs) :=
      Nat.mul_pos (by omega) hKpos
    have hsign : (((n.natAbs * 2 ^ (53 - bitlen n.natAbs) : Nat) : Int)).sign = 1 :=
      Int.sign_eq_one_of_pos (by exact_mod_cast hpos)
    have hnabs : (((n.natAbs * 2 ^ (53 - bitlen n.natAbs) : Nat) : Int)).natAbs =
        n.natAbs * 2 ^ (53 - bitlen n.natAbs) := Int.natAbs_ofNat _
    have ht : (-((bitlen n.natAbs : Int) - 53)).toNat = 53 - bitlen n.natAbs := by
      omega
    rw [hsign, hnabs, ht, one_mul]
    have hcast : ((n.natAbs * 2 ^ (53 - bitlen n.natAbs) : Nat) : Int) =
        (n.natAbs : Int) * 2 ^ (53 - bitlen n.natAbs) := by
      push_cast
      ring
    rw [hcast, Int.mul_ediv_cancel _ (ne_of_gt (by positivity))]
    exact Int.natAbs_of_nonneg (by omega)

/-- The exponent never undershoots the conversion estimate. -/
theorem roundPos_one_E_ge (a : Nat) (ha : a ≠ 0) :
    (bitlen a : Int) - 1 ≤ (roundPos a 1).2 := by
  rw [roundPos]
  split
  · rw [roundPosE_one a ha]
    omega
  · rw [roundPosE_one a ha]

/-- An integer of more than 53 bits converts to a float of magnitude at
    least `2^53`, so the loop guard is satisfied. -/
theorem floatOfInt_large_ge (n : Int) (h1 : 1 ≤ n) (h2 : 53 < bitlen n.natAbs) :
    dyAbsGe (floatOfInt n) 10000 = true := by
  have ha : n.natAbs ≠ 0 := by omega
  have hfl : floatOfInt n =
      ⟨((roundPos n.natAbs 1).1 : Int), (roundPos n.natAbs 1).2 - 52⟩ := by
    show (⟨if n < 0 then -((roundPos n.natAbs 1).1 : Int)
        else ((roundPos n.natAbs 1).1 : Int),
      (roundPos n.natAbs 1).2 - 52⟩ : Dyadic) = _
    rw [if_neg (by omega)]
  have hE := roundPos_one_E_ge n.natAbs ha
  have hEpos : (0:Int) ≤ (roundPos n.natAbs 1).2 - 52 := by omega
  rw [hfl, dyAbsGe]
  rw [if_pos hEpos]
  have hM := roundPos_lb n.natAbs 1 ha (by omega)
  have habs : (((roundPos n.natAbs 1).1 : Nat) : Int).natAbs =
      (roundPos n.natAbs 1).1 := Int.natAbs_ofNat _
  have hpow : (1 : Nat) ≤ 2 ^ ((roundPos n.natAbs 1).2 - 52).toNat :=
    Nat.one_le_two_pow
  have h4 : (10000 : Nat) ≤ (roundPos n.natAbs 1).1 := le_trans (by norm_num) hM
  simp only [habs, decide_eq_true_eq]
  calc (10000 : Nat) ≤ (roundPos n.natAbs 1).1 := h4
    _ = (roundPos n.natAbs 1).1 * 1 := by ring
    _ ≤ (roundPos n.natAbs 1).1 * 2 ^ ((roundPos n.natAbs 1).2 - 52).toNat :=
        Nat.mul_le_mul_left _ hpow

/-! ### Formatter-level lemmas -/

/-- Branch form of the formatter core. -/
theorem hrnCore_eq (v : Dyadic) (unit : String) :
    hrnCore v unit =
      if (reduceLoop v).2 = 0 then intComma (dyTrunc (reduceLoop v).1) ++ unit
      else oneDecimal (reduceLoop v).1 ++
        unitsList.getD (reduceLoop v).2 "" ++ unit := rfl

/-- A loop that performed no division returns its input float. -/
theorem reduceLoop_idx_zero (v : Dyadic) (h : (reduceLoop v).2 = 0) :
    (reduceLoop v).1 = v := by
  have h1 := reduceLoopAux_divSteps (unitsList.length - 1) v 0
  have h2 : (reduceLoopAux (unitsList.length - 1) v 0).2 = 0 := h
  rw [Nat.sub_zero, h2] at h1
  exact h1

/-- Sign mirror of the core on the float of a positive integer. -/
theorem hrnCore_floatOfInt_neg (n : Int) (h : 1 ≤ n) (unit : String) :
    hrnCore (dyNeg (floatOfInt n)) unit = "-" ++ hrnCore (floatOfInt n) unit := by
  have hloop : reduceLoop (dyNeg (floatOfInt n)) =
      (dyNeg (reduceLoop (floatOfInt n)).1, (reduceLoop (floatOfInt n)).2) :=
    reduceLoopAux_neg (unitsList.length - 1) (floatOfInt n) 0
  rw [hrnCore_eq, hrnCore_eq, hloop]
  by_cases h0 : (reduceLoop (floatOfInt n)).2 = 0
  · rw [if_pos h0, if_pos h0]
    rw [reduceLoop_idx_zero _ h0, dyTrunc_neg]
    have htr : 1 ≤ dyTrunc (floatOfInt n) := by
      by_cases h53 : bitlen n.natAbs ≤ 53
      · rw [dyTrunc_floatOfInt_small n h h53]
        exact h
      · exfalso
        have hg := floatOfInt_large_ge n h (by omega)
        have := (reduceLoopAux_idx_iff (unitsList.length - 2) (floatOfInt n) 0).mp h0
        rw [hg] at this
        exact absurd this (by decide)
    rw [intComma_neg _ (by omega), neg_neg, str_append_assoc]
  · rw [if_neg h0, if_neg h0]
    have hm : 1 ≤ (reduceLoop (floatOfInt n)).1.m :=
      reduceLoopAux_pos (unitsList.length - 1) (floatOfInt n) 0
        (floatOfInt_m_pos n h)
    rw [oneDecimal_neg _ hm]
    simp only [str_append_assoc]

/-- Sign mirror for the whole formatter. -/
theorem human_readable_number_neg (n : Int) (unit : String) (h : n < 0) :
    human_readable_number n unit = "-" ++ human_readable_number (-n) unit := by
  have hfl : floatOfInt n = dyNeg (floatOfInt (-n)) := by
    conv_lhs => rw [show n = -(-n) by ring]
    exact floatRoundRat_neg (-n) 1
  rw [human_readable_number, human_readable_number, hfl, dyAbsGe_neg]
  split
  · exact toString_int_neg n h
  · exact hrnCore_floatOfInt_neg (-n) (by omega) unit

/-- A failed parse is the identity passthrough. -/
theorem human_readable_number_str_of_parse_fail (s unit : String)
    (h : parseIntStr s = none) : human_readable_number_str s unit = s := by
  rw [human_readable_number_str, h]

/-- A successful non-overflowing parse delegates to the integer formatter. -/
theorem human_readable_number_str_of_parse (s unit : String) (n : Int)
    (h : parseIntStr s = some n)
    (hr : dyAbsGe (floatOfInt n) (2 ^ 1024) = false) :
    human_readable_number_str s unit = human_readable_number n unit := by
  rw [human_readable_number_str, h]
  show (if dyAbsGe (floatOfInt n) (2 ^ 1024) then s
    else hrnCore (floatOfInt n) unit) = human_readable_number n unit
  rw [if_neg (by rw [hr]; decide), human_readable_number,
    if_neg (by rw [hr]; decide)]

/-! ### Deduplication lemmas (`list(dict.fromkeys(...))`) -/

theorem dedupFold_nodup :
    ∀ (l acc : List String), acc.Nodup →
      (l.foldl (fun acc x => if x ∈ acc then acc else acc ++ [x]) acc).Nodup := by
  intro l
  induction l with
  | nil => intro acc h; simpa using h
  | cons x rest ih =>
    intro acc h
    rw [List.foldl_cons]
    by_cases hx : x ∈ acc
    · rw [if_pos hx]; exact ih acc h
    · rw [if_neg hx]
      refine ih (acc ++ [x]) ?_
      rw [List.nodup_append]
      exact ⟨h, List.nodup_singleton x, fun a ha hb => hx (by
        rw [List.mem_singleton] at hb; exact hb ▸ ha)⟩

theorem dedupFold_mem :
    ∀ (l acc : List String) (y : String),
      y ∈ l.foldl (fun acc x => if x ∈ acc then acc else acc ++ [x]) acc ↔
        y ∈ acc ∨ y ∈ l := by
  intro l
  induction l with
  | nil => intro acc y; simp
  | cons x rest ih =>
    intro acc y
    rw [List.foldl_cons]
    by_cases hx : x ∈ acc
    · rw [if_pos hx, ih acc y]
      constructor
      · rintro (h | h)
        · exact Or.inl h
        · exact Or.inr (List.mem_cons_of_mem x h)
      · rintro (h | h)
        · exact Or.inl h
        · rcases List.mem_cons.mp h with h | h
          · exact Or.inl (h ▸ hx)
          · exact Or.inr h
    · rw [if_neg hx, ih (acc ++ [x]) y]
      simp only [List.mem_append, List.mem_singleton, List.mem_cons]
      tauto

theorem dedupFold_sublist :
    ∀ (l acc : List String),
      ∃ keep, l.foldl (fun acc x => if x ∈ acc then acc else acc ++ [x]) acc =
        acc ++ keep ∧ keep.Sublist l := by
  intro l
  induction l with
  | nil => intro acc; exact ⟨[], by simp⟩
  | cons x rest ih =>
    intro acc
    rw [List.foldl_cons]
    by_cases hx : x ∈ acc
    · rw [if_pos hx]
      obtain ⟨keep, hk, hs⟩ := ih acc
      exact ⟨keep, hk, hs.cons x⟩
    · rw [if_neg hx]
      obtain ⟨keep, hk, hs⟩ := ih (acc ++ [x])
      exact ⟨x :: keep, by rw [hk, List.append_assoc]; rfl, hs.cons₂ x⟩

/-- The deduplication has no duplicates. -/
theorem dedupKeepOrder_nodup (l : List String) : (dedupKeepOrder l).Nodup :=
  dedupFold_nodup l [] List.nodup_nil

/-- The deduplication keeps exactly the elements of the input. -/
theorem dedupKeepOrder_mem (l : List String) (y : String) :
    y ∈ dedupKeepOrder l ↔ y ∈ l := by
  rw [dedupKeepOrder, dedupFold_mem l [] y]
  simp

/-- The deduplication preserves the input's (first-seen) order: it is a
    sublist of the input. -/
theorem dedupKeepOrder_sublist (l : List String) :
    (dedupKeepOrder l).Sublist l := by
  obtain ⟨keep, hk, hs⟩ := dedupFold_sublist l []
  rw [dedupKeepOrder, hk]
  simpa using hs

/-! ### Projection equations of `render_video_item` -/

theorem render_videoUrl (item : RawItem) (m : StatsMap) :
    (render_video_item item m).videoUrl =
      "https://www.youtube.com/watch?v=" ++ item.id.getD "" := rfl

theorem render_views (item : RawItem) (m : StatsMap) :
    (render_video_item item m).views =
      human_readable_number_opt (jsonGetD item.statistics.viewCount "0") "회" := rfl

theorem render_likes (item : RawItem) (m : StatsMap) :
    (render_video_item item m).likes =
      match item.statistics.likeCount with
      | some s => human_readable_number_str s "개"
      | none => sentinel := rfl

theorem render_comments (item : RawItem) (m : StatsMap) :
    (render_video_item item m).comments =
      match item.statistics.commentCount with
      | some s => human_readable_number_str s "개"
      | none => sentinel := rfl

theorem render_subsText (item : RawItem) (m : StatsMap) :
    (render_video_item item m).subsText =
      if (item.snippet.channelId).getD "" ≠ "" then
        match dictFind m (some ((item.snippet.channelId).getD "")) with
        | some ch_stats =>
          match ch_stats.subscriberCount with
          | some subs => human_readable_number_str subs "명"
          | none => sentinel
        | none => sentinel
      else sentinel := rfl

/-- With the empty mapping every row's subscriber text is the sentinel. -/
theorem render_subsText_empty (item : RawItem) :
    (render_video_item item []).subsText = sentinel := by
  rw [render_subsText]
  split
  · rfl
  · rfl

/-! ### `fetch_channel_statistics` lemmas -/

/-- Unfolding of the fetch on a non-empty input. -/
theorem fetch_channel_statistics_eq (net : ChannelsNet) (ids : List String)
    (h : ids ≠ []) :
    fetch_channel_statistics net ids =
      match net (channelsIdParam ids) with
      | Except.error e => (Except.error e, [channelsIdParam ids])
      | Except.ok resp =>
        if raisesForStatus resp.status then
          (Except.error ("HTTP " ++ toString resp.status), [channelsIdParam ids])
        else
          (Except.ok (buildStatsMap resp.items), [channelsIdParam ids]) := by
  rw [fetch_channel_statistics, if_neg h]
  rfl

/-- A non-empty input issues exactly one request, for the capped
    deduplicated parameter. -/
theorem fetch_channel_statistics_requests (net : ChannelsNet)
    (ids : List String) (h : ids ≠ []) :
    (fetch_channel_statistics net ids).2 = [channelsIdParam ids] := by
  rw [fetch_channel_statistics_eq net ids h]
  cases net (channelsIdParam ids) with
  | error e => rfl
  | ok resp =>
    split
    · rfl
    · split <;> rfl

/-- A 2xx response is never turned into an exception, whatever the input
    list length was. -/
theorem fetch_channel_statistics_ok (net : ChannelsNet) (ids : List String)
    (resp : ChannelsHttpResp) (h : ids ≠ [])
    (hnet : net (channelsIdParam ids) = Except.ok resp)
    (hst : raisesForStatus resp.status = false) :
    (fetch_channel_statistics net ids).1 = Except.ok (buildStatsMap resp.items) := by
  rw [fetch_channel_statistics_eq net ids h, hnet]
  simp [hst]

/-! ### Orchestration lemmas -/

/-- In float range, the formatter runs the ladder on the float. -/
theorem human_readable_number_in_range (n : Int) (unit : String)
    (hr : dyAbsGe (floatOfInt n) (2 ^ 1024) = false) :
    human_readable_number n unit = hrnCore (floatOfInt n) unit := by
  rw [human_readable_number, if_neg (by rw [hr]; decide)]

/-- A failing stats call makes `main` render with the empty mapping. -/
theorem mainListingSection_error (net : ChannelsNet) (items : List RawItem)
    (e : String)
    (h : (fetch_channel_statistics net
        (items.map fun it => (it.snippet.channelId).getD "")).1 = Except.error e) :
    mainListingSection net items = renderAll items [] := by
  rw [mainListingSection]
  simp only [h]

/-- A fresh cache always goes to the network and stores the result. -/
theorem cache_miss_on_empty (net : ListingKey → VideosResp) (t : Nat)
    (k : ListingKey) :
    fetch_popular_videos_cached net [] t k = (net k, [(k, t, net k)], true) := rfl

/-- A cache hit within the TTL serves the stored value without the network. -/
theorem cache_hit_within_ttl (net : ListingKey → VideosResp) (t now : Nat)
    (k : ListingKey) (v : VideosResp) (rest : ListingCache)
    (h : now < t + CACHE_TTL) :
    fetch_popular_videos_cached net ((k, t, v) :: rest) now k =
      (v, (k, t, v) :: rest, false) := by
  have hf : cacheFind ((k, t, v) :: rest) k = some (t, v) := by
    rw [cacheFind, if_pos rfl]
  rw [fetch_popular_videos_cached, hf]
  simp only [if_pos h]

/-! ## Claims -/

/-- **C1, counterexample.**  `10 ^ 309` is an integer input (so
    integer-parseable) of magnitude at least 10,000; the claim therefore
    requires a reduced output carrying a ladder suffix and ending in the
    unit `"X"`, but `float(int(n))` overflows (the rounded magnitude reaches
    `2^1024`) and the function returns the bare numeral: the output is
    `str(10 ^ 309)`, whose last character is `'0'`, not `'X'`. -/
theorem C1_counterexample :
    10000 ≤ ((10 : Int) ^ 309).natAbs ∧
    dyAbsGe (floatOfInt ((10 : Int) ^ 309)) (2 ^ 1024) = true ∧
    human_readable_number ((10 : Int) ^ 309) "X" = toString ((10 : Int) ^ 309) ∧
    (human_readable_number ((10 : Int) ^ 309) "X").toList.getLast? = some '0' := by
  have hover : dyAbsGe (floatOfInt ((10 : Int) ^ 309)) (2 ^ 1024) = true := by
    decide
  have heq : human_readable_number ((10 : Int) ^ 309) "X" =
      toString ((10 : Int) ^ 309) := by
    rw [human_readable_number, if_pos hover]
  refine ⟨by decide, hover, heq, ?_⟩
  rw [heq]
  decide

/-- **C1, amended.**  For every integer input whose `float` conversion does
    not overflow, the formatter is exactly the division ladder on the
    double-precision value `float(n)`: the loop divides the float by 10,000
    (`divSteps`, each division correctly rounded) as many times as the
    returned index says, never more than the four suffixes 만/억/조/경
    allow; it performs no division exactly when the float's magnitude is
    below 10,000, and when it stops before exhausting the ladder the
    remaining float is below 10,000.  Without reduction the output is the
    comma-grouped `int(value)` and unit; with reduction it is the float's
    one-decimal compact form (`oneDecimal`, trailing `.0` stripped), the
    matched suffix, and the unit.  The spec's examples are instances, and
    the step count follows the double, not the exact integer:
    `float(9999999999999999)` rounds up to `1e16` and takes all four steps,
    printing `"1경X"`. -/
theorem C1_ladder (n : Int) (unit : String)
    (hr : dyAbsGe (floatOfInt n) (2 ^ 1024) = false) :
    unitsList = ["", "만", "억", "조", "경"] ∧
    (reduceLoop (floatOfInt n)).2 ≤ 4 ∧
    ((reduceLoop (floatOfInt n)).2 = 0 ↔ dyAbsGe (floatOfInt n) 10000 = false) ∧
    ((reduceLoop (floatOfInt n)).2 < 4 →
      dyAbsGe (reduceLoop (floatOfInt n)).1 10000 = false) ∧
    (reduceLoop (floatOfInt n)).1 =
      divSteps (reduceLoop (floatOfInt n)).2 (floatOfInt n) ∧
    ((reduceLoop (floatOfInt n)).2 = 0 →
      human_readable_number n unit = intComma (dyTrunc (floatOfInt n)) ++ unit) ∧
    (0 < (reduceLoop (floatOfInt n)).2 →
      human_readable_number n unit =
        oneDecimal (reduceLoop (floatOfInt n)).1 ++
          unitsList.getD (reduceLoop (floatOfInt n)).2 "" ++ unit) ∧
    human_readable_number 9999 "X" = "9,999X" ∧
    human_readable_number 173 "X" = "173X" ∧
    human_readable_number 1730000 "X" = "173만X" ∧
    human_readable_number 9999999999999999 "X" = "1경X" := by
  refine ⟨rfl, ?_, ?_, ?_, ?_, ?_, ?_, by decide, by decide, by decide, by decide⟩
  · show (reduceLoopAux 4 (floatOfInt n) 0).2 ≤ 4
    simpa using reduceLoopAux_le 4 (floatOfInt n) 0
  · exact reduceLoopAux_idx_iff (unitsList.length - 2) (floatOfInt n) 0
  · intro h4
    have hk : (reduceLoopAux 4 (floatOfInt n) 0).2 < 0 + 4 := by
      show (reduceLoop (floatOfInt n)).2 < 0 + 4
      omega
    exact reduceLoopAux_stop 4 (floatOfInt n) 0 hk
  · have := reduceLoopAux_divSteps (unitsList.length - 1) (floatOfInt n) 0
    simpa using this
  · intro h0
    rw [human_readable_number_in_range n unit hr, hrnCore_eq, if_pos h0,
      reduceLoop_idx_zero _ h0]
  · intro hpos
    rw [human_readable_number_in_range n unit hr, hrnCore_eq,
      if_neg (by omega)]

/-- **C1, witness.**  The amended theorem applied at 1,730,000: reduction
    occurred, and the output is `"173만X"`. -/
theorem C1_ladder_witness :
    human_readable_number 1730000 "X" =
      oneDecimal (reduceLoop (floatOfInt 1730000)).1 ++
        unitsList.getD (reduceLoop (floatOfInt 1730000)).2 "" ++ "X" ∧
    human_readable_number 1730000 "X" = "173만X" :=
  ⟨(C1_ladder 1730000 "X" (by decide)).2.2.2.2.2.2.1 (by decide),
    (C1_ladder 1730000 "X" (by decide)).2.2.2.2.2.2.2.2.2.1⟩

/-- **C2, counterexample.**  `["", ""]` is non-empty, filters to the empty
    list, yet the call still issues one network request (with an empty `id`
    parameter) instead of short-circuiting: only the literal empty list is
    tested by `if not channel_ids`. -/
theorem C2_counterexample :
    (["", ""] : List String) ≠ [] ∧
    (["", ""] : List String).filter (fun cid => cid ≠ "") = [] ∧
    (fetch_channel_statistics sampleNetOk ["", ""]).2 = [""] := by
  refine ⟨by decide, by decide, by decide⟩

/-- **C2, amended.**  The literal empty list short-circuits to the empty
    mapping with no network call; every non-empty list — including one that
    filters to nothing — issues exactly one network request, with the
    capped deduplicated `id` parameter. -/
theorem C2_empty_shortcircuit :
    (∀ net : ChannelsNet, fetch_channel_statistics net [] = (Except.ok [], [])) ∧
    (∀ (net : ChannelsNet) (ids : List String), ids ≠ [] →
      (fetch_channel_statistics net ids).2 = [channelsIdParam ids]) := by
  constructor
  · intro net
    rw [fetch_channel_statistics, if_pos rfl]
  · intro net ids h
    exact fetch_channel_statistics_requests net ids h

/-- **C2, witness.**  The empty list with a concrete oracle; the `["", ""]`
    list issues its single request. -/
theorem C2_empty_shortcircuit_witness :
    fetch_channel_statistics sampleNetOk [] = (Except.ok [], []) ∧
    (fetch_channel_statistics sampleNetOk ["", ""]).2 = [channelsIdParam ["", ""]] :=
  ⟨C2_empty_shortcircuit.1 sampleNetOk,
    C2_empty_shortcircuit.2 sampleNetOk ["", ""] (by decide)⟩

/-- **C3, counterexample.**  An item whose `channelId` is the empty string,
    looked up in a mapping that carries the empty string as a key with a
    present `subscriberCount`: the key is present and the count is present,
    yet the row shows the sentinel (the truthiness test `if channel_id`
    rejects the empty id), so a present subscriberCount is not always
    rendered through the formatter. -/
theorem C3_counterexample :
    dictFind [(some "", ⟨some "100"⟩)] (some "") = some ⟨some "100"⟩ ∧
    (render_video_item
        ⟨some "v", ⟨none, none, some "", ⟨none, none, none⟩⟩,
          ⟨JsonField.missing, none, none⟩⟩
        [(some "", ⟨some "100"⟩)]).subsText = sentinel ∧
    sentinel ≠ human_readable_number_str "100" "명" := by
  refine ⟨by decide, by decide, by decide⟩

/-- **C3, amended.**  An absent key or an absent subscriberCount yields the
    sentinel, never a formatted zero; a present subscriberCount is rendered
    through the formatter provided the item's ownerId is non-empty (an
    empty ownerId always yields the sentinel); absent likeCount or
    commentCount yield the sentinel while present values — including a
    legitimate zero — are formatted normally. -/
theorem C3_sentinel_fields (item : RawItem) (m : StatsMap) :
    (dictFind m (some ((item.snippet.channelId).getD "")) = none →
      (render_video_item item m).subsText = sentinel) ∧
    (∀ ch, dictFind m (some ((item.snippet.channelId).getD "")) = some ch →
      ch.subscriberCount = none → (render_video_item item m).subsText = sentinel) ∧
    (∀ ch s, (item.snippet.channelId).getD "" ≠ "" →
      dictFind m (some ((item.snippet.channelId).getD "")) = some ch →
      ch.subscriberCount = some s →
      (render_video_item item m).subsText = human_readable_number_str s "명") ∧
    (item.statistics.likeCount = none → (render_video_item item m).likes = sentinel) ∧
    (∀ s, item.statistics.likeCount = some s →
      (render_video_item item m).likes = human_readable_number_str s "개") ∧
    (item.statistics.commentCount = none →
      (render_video_item item m).comments = sentinel) ∧
    (∀ s, item.statistics.commentCount = some s →
      (render_video_item item m).comments = human_readable_number_str s "개") ∧
    human_readable_number_str "0" "개" = "0개" ∧
    sentinel ≠ "0" ∧ sentinel ≠ human_readable_number_str "0" "명" := by
  refine ⟨?_, ?_, ?_, ?_, ?_, ?_, ?_, by decide, by decide, by decide⟩
  · intro h
    rw [render_subsText]
    split
    · rw [h]
    · rfl
  · intro ch hch hsub
    rw [render_subsText]
    split
    · rw [hch]
      show (match ch.subscriberCount with
        | some subs => human_readable_number_str subs "명"
        | none => sentinel) = sentinel
      rw [hsub]
    · rfl
  · intro ch s hcid hch hsub
    rw [render_subsText]
    split
    · rw [hch]
      show (match ch.subscriberCount with
        | some subs => human_readable_number_str subs "명"
        | none => sentinel) = human_readable_number_str s "명"
      rw [hsub]
    · exact absurd hcid (by assumption)
  · intro h
    rw [render_likes, h]
  · intro s h
    rw [render_likes, h]
  · intro h
    rw [render_comments, h]
  · intro s h
    rw [render_comments, h]

/-- **C3, witness.**  A concrete item with a present subscriber count, a
    legitimate zero likeCount and an absent commentCount. -/
theorem C3_sentinel_fields_witness :
    (render_video_item sampleItem sampleMap).subsText =
      human_readable_number_str "12345" "명" ∧
    (render_video_item sampleItem sampleMap).likes =
      human_readable_number_str "0" "개" ∧
    (render_video_item sampleItem sampleMap).comments = sentinel :=
  ⟨(C3_sentinel_fields sampleItem sampleMap).2.2.1 ⟨some "12345"⟩ "12345"
      (by decide) (by decide) rfl,
    (C3_sentinel_fields sampleItem sampleMap).2.2.2.2.1 "0" rfl,
    (C3_sentinel_fields sampleItem sampleMap).2.2.2.2.2.1 rfl⟩

/-- **C4.**  The rendered sequence matches the raw items one-to-one and in
    order: same length, the i-th record is the rendering of the i-th item,
    and the records' permalinks are the items' ids in order — nothing is
    reordered, dropped or inserted. -/
theorem C4_order_preserved (items : List RawItem) (m : StatsMap)
    (_hne : items ≠ []) :
    (renderAll items m).length = items.length ∧
    (∀ i : Nat, (renderAll items m)[i]? =
      (items[i]?).map (fun it => render_video_item it m)) ∧
    (renderAll items m).map DisplayRecord.videoUrl =
      items.map (fun it => "https://www.youtube.com/watch?v=" ++ it.id.getD "") := by
  refine ⟨by simp [renderAll], fun i => by simp [renderAll], ?_⟩
  rw [renderAll, List.map_map]
  rfl

/-- **C4, witness.**  A concrete singleton listing. -/
theorem C4_order_preserved_witness :
    (renderAll [sampleItem] sampleMap).length = [sampleItem].length ∧
    (renderAll [sampleItem] sampleMap).map DisplayRecord.videoUrl =
      [sampleItem].map (fun it => "https://www.youtube.com/watch?v=" ++ it.id.getD "") :=
  ⟨(C4_order_preserved [sampleItem] sampleMap (by decide)).1,
    (C4_order_preserved [sampleItem] sampleMap (by decide)).2.2⟩

/-- **C5.**  On any non-empty input the fetch issues exactly one request
    whose `id` parameter is the comma-join of the first 50 deduplicated
    non-empty ids; the deduplication has no duplicates, preserves first-seen
    order (sublist of the filtered input) and loses no id; at most 50 ids
    are queried; and a non-error response is never turned into an
    exception, regardless of how many ids overflowed the cap. -/
theorem C5_dedup_cap (net : ChannelsNet) (ids : List String) (hne : ids ≠ []) :
    (fetch_channel_statistics net ids).2 = [channelsIdParam ids] ∧
    (dedupKeepOrder (ids.filter fun cid => cid ≠ "")).Nodup ∧
    (dedupKeepOrder (ids.filter fun cid => cid ≠ "")).Sublist
      (ids.filter fun cid => cid ≠ "") ∧
    (∀ y, y ∈ dedupKeepOrder (ids.filter fun cid => cid ≠ "") ↔
      y ∈ ids.filter fun cid => cid ≠ "") ∧
    ((dedupKeepOrder (ids.filter fun cid => cid ≠ "")).take 50).length ≤ 50 ∧
    (∀ resp : ChannelsHttpResp, net (channelsIdParam ids) = Except.ok resp →
      raisesForStatus resp.status = false →
      (fetch_channel_statistics net ids).1 = Except.ok (buildStatsMap resp.items)) := by
  refine ⟨fetch_channel_statistics_requests net ids hne,
    dedupKeepOrder_nodup _, dedupKeepOrder_sublist _,
    fun y => dedupKeepOrder_mem _ y, ?_,
    fun resp hnet hst => fetch_channel_statistics_ok net ids resp hne hnet hst⟩
  rw [List.length_take]
  exact min_le_left _ _

/-- **C5, witness.**  Sixty distinct ids: one request, with the first 50. -/
theorem C5_dedup_cap_witness :
    (fetch_channel_statistics sampleNetOk sampleIds).2 = [channelsIdParam sampleIds] ∧
    ((dedupKeepOrder (sampleIds.filter fun cid => cid ≠ "")).take 50).length ≤ 50 :=
  ⟨(C5_dedup_cap sampleNetOk sampleIds (by decide)).1,
    (C5_dedup_cap sampleNetOk sampleIds (by decide)).2.2.2.2.1⟩

/-- **C6.**  Whenever the input fails to parse as an integer the formatter
    returns the input unchanged (the function itself is total by
    construction: every branch returns a string). -/
theorem C6_identity_passthrough (s unit : String) (h : parseIntStr s = none) :
    human_readable_number_str s unit = s :=
  human_readable_number_str_of_parse_fail s unit h

/-- **C6, witness.**  The spec's example input. -/
theorem C6_identity_passthrough_witness :
    human_readable_number_str "not-a-number" "X" = "not-a-number" :=
  C6_identity_passthrough "not-a-number" "X" (by decide)

/-- **C7.**  Negative inputs step the ladder on the absolute value (every
    float operation of the loop is sign-symmetric, so the division count of
    `n` and `-n` agree) and the output is the minus sign followed by the
    output for the magnitude. -/
theorem C7_negative_sign (n : Int) (unit : String) (h : n < 0) :
    (reduceLoop (floatOfInt n)).2 = (reduceLoop (floatOfInt (-n))).2 ∧
    human_readable_number n unit = "-" ++ human_readable_number (-n) unit := by
  have hfl : floatOfInt n = dyNeg (floatOfInt (-n)) := by
    conv_lhs => rw [show n = -(-n) by ring]
    exact floatRoundRat_neg (-n) 1
  constructor
  · rw [hfl]
    have hmir := reduceLoopAux_neg (unitsList.length - 1) (floatOfInt (-n)) 0
    show (reduceLoopAux (unitsList.length - 1) (dyNeg (floatOfInt (-n))) 0).2 =
      (reduceLoop (floatOfInt (-n))).2
    rw [hmir]
    rfl
  · exact human_readable_number_neg n unit h

/-- **C7, witness.**  The spec's example: `format(-15000, "X") = "-1.5만X"`. -/
theorem C7_negative_sign_witness :
    human_readable_number (-15000) "X" = "-1.5만X" :=
  ((C7_negative_sign (-15000) "X" (by decide)).2).trans (by decide)

/-- **C8.**  When the channel-statistics call raises, `main` substitutes the
    empty mapping: every item still renders, in place, and every subscriber
    field shows the sentinel. -/
theorem C8_stats_failure_degrades (net : ChannelsNet) (items : List RawItem)
    (e : String)
    (h : (fetch_channel_statistics net
        (items.map fun it => (it.snippet.channelId).getD "")).1 = Except.error e) :
    mainListingSection net items = renderAll items [] ∧
    (mainListingSection net items).length = items.length ∧
    ∀ r ∈ mainListingSection net items, r.subsText = sentinel := by
  have hm := mainListingSection_error net items e h
  refine ⟨hm, by rw [hm]; simp [renderAll], ?_⟩
  intro r hr
  rw [hm, renderAll] at hr
  obtain ⟨it, _, rfl⟩ := List.mem_map.mp hr
  exact render_subsText_empty it

/-- **C8, witness.**  A failing oracle with a one-item listing: the row
    renders with the sentinel subscriber text. -/
theorem C8_stats_failure_degrades_witness :
    mainListingSection sampleNetErr [sampleItem] = renderAll [sampleItem] [] ∧
    (mainListingSection sampleNetErr [sampleItem]).length = 1 ∧
    ∀ r ∈ mainListingSection sampleNetErr [sampleItem], r.subsText = sentinel :=
  ⟨(C8_stats_failure_degrades sampleNetErr [sampleItem] "timeout" rfl).1,
    (C8_stats_failure_degrades sampleNetErr [sampleItem] "timeout" rfl).2.1,
    (C8_stats_failure_degrades sampleNetErr [sampleItem] "timeout" rfl).2.2⟩

/-- **C9.**  Two sequential calls with identical arguments within the
    300-unit TTL issue exactly one network call: the first (cold) call goes
    to the network, the second is served from the cache with the same
    response and no network call. -/
theorem C9_cache_single_call (net : ListingKey → VideosResp) (k : ListingKey)
    (t1 t2 : Nat) (h : t2 < t1 + CACHE_TTL) :
    (fetch_popular_videos_cached net [] t1 k).2.2 = true ∧
    (fetch_popular_videos_cached net [] t1 k).1 = net k ∧
    (fetch_popular_videos_cached net
      (fetch_popular_videos_cached net [] t1 k).2.1 t2 k).2.2 = false ∧
    (fetch_popular_videos_cached net
      (fetch_popular_videos_cached net [] t1 k).2.1 t2 k).1 = net k := by
  have h1 : fetch_popular_videos_cached net [] t1 k =
      (net k, [(k, t1, net k)], true) := cache_miss_on_empty net t1 k
  have h2 : fetch_popular_videos_cached net [(k, t1, net k)] t2 k =
      (net k, [(k, t1, net k)], false) := cache_hit_within_ttl net t1 t2 k (net k) [] h
  rw [h1]
  exact ⟨rfl, rfl, by rw [h2], by rw [h2]⟩

/-- **C9, witness.**  A concrete key and oracle, second call 299 units
    later. -/
theorem C9_cache_single_call_witness :
    (fetch_popular_videos_cached sampleListingNet [] 0 sampleKey).2.2 = true ∧
    (fetch_popular_videos_cached sampleListingNet
      (fetch_popular_videos_cached sampleListingNet [] 0 sampleKey).2.1
      299 sampleKey).2.2 = false :=
  ⟨(C9_cache_single_call sampleListingNet sampleKey 0 299 (by decide)).1,
    (C9_cache_single_call sampleListingNet sampleKey 0 299 (by decide)).2.2.1⟩

/-- **C10, counterexample.**  An item whose `viewCount` key is present but
    null: `stats.get("viewCount", "0")` returns `None`, `int(None)` raises
    `TypeError`, and the view field renders as `str(None) = "None"` — not
    the formatted zero the claim asserts (and not the sentinel either). -/
theorem C10_counterexample :
    sampleItemNullViews.statistics.viewCount = JsonField.null ∧
    (render_video_item sampleItemNullViews []).views = "None" ∧
    ("None" : String) ≠ "0회" ∧
    ("None" : String) ≠ sentinel := by
  refine ⟨rfl, by decide, by decide, by decide⟩

/-- **C10, amended.**  A `viewCount` key that is missing entirely renders as
    the formatted zero `"0회"`, never the sentinel — unlike absent
    likeCount/commentCount, which render as the sentinel; but a
    present-but-null `viewCount` renders as the bare string `"None"`
    (`str(None)`, no unit), not as `"0회"`. -/
theorem C10_viewcount_zero (item : RawItem) (m : StatsMap) :
    (item.statistics.viewCount = JsonField.missing →
      (render_video_item item m).views = "0회" ∧
      (render_video_item item m).views ≠ sentinel) ∧
    (item.statistics.viewCount = JsonField.null →
      (render_video_item item m).views = "None") ∧
    (item.statistics.likeCount = none → (render_video_item item m).likes = sentinel) ∧
    (item.statistics.commentCount = none →
      (render_video_item item m).comments = sentinel) := by
  refine ⟨?_, ?_, fun hl => by rw [render_likes, hl],
    fun hc => by rw [render_comments, hc]⟩
  · intro h
    have hv : (render_video_item item m).views =
        human_readable_number_str "0" "회" := by
      rw [render_views, h]
      rfl
    exact ⟨hv.trans (by decide), by rw [hv]; decide⟩
  · intro h
    rw [render_views, h]
    rfl

/-- **C10, witness.**  The amended theorem applied to an item with no
    statistics (missing `viewCount`) and to one with a null `viewCount`. -/
theorem C10_viewcount_zero_witness :
    (render_video_item sampleItemNoStats sampleMap).views = "0회" ∧
    (render_video_item sampleItemNullViews sampleMap).views = "None" ∧
    (render_video_item sampleItemNoStats sampleMap).likes = sentinel :=
  ⟨((C10_viewcount_zero sampleItemNoStats sampleMap).1 rfl).1,
    (C10_viewcount_zero sampleItemNullViews sampleMap).2.1 rfl,
    (C10_viewcount_zero sampleItemNoStats sampleMap).2.2.1 rfl⟩

end Dashboard

